import Mathlib

/-!
Shallow embedding of the cvrptwms VRPTWMS solver (C sources) in Lean 4.

Real-valued C `double` quantities are modelled as `ℚ` (exact arithmetic);
C `int`/`long` counters as `ℤ` or `ℕ` as appropriate.  Doubly linked node
chains are modelled as `List Node`; a pointer into a chain becomes an index.
The per-node scratch fields `aest_cache`/`alst_cache` of `node.h` are not
stored: the routines that fill them (`calc_ests` in cache mode) are modelled
as pure propagation functions over the node list, which is observationally
equivalent because the caches are always recomputed before they are read.
-/

namespace Cvrptwms

/-- `MIN_DELTA` from `common.h`: `static const double MIN_DELTA = 1e-13`. -/
def MIN_DELTA : ℚ := 1 / 10 ^ 13

/-- `DBL_MAX` (used by `init_move` for non-improving moves). -/
def DBL_MAX : ℚ := 2 ^ 1024 - 2 ^ 971

/-- The depot's node id (`static const int DEPOT = 0` in `common.h`). -/
def DEPOT : ℕ := 0

/-- `enum problem_state` from `problemreader.h`: `REDUCE_TRUCKS` is 0. -/
def REDUCE_TRUCKS : ℕ := 0

/-- `enum problem_state` from `problemreader.h`: `REDUCE_WORKERS` is 1. -/
def REDUCE_WORKERS : ℕ := 1

/-- `struct node` from `node.h` (planar coordinates and the scratch caches
are omitted; see the header comment). -/
structure Node where
  id : ℕ
  demand : ℚ
  est : ℚ
  lst : ℚ
  service_time : ℚ
  aest : ℚ
  alst : ℚ
  deriving Repr, DecidableEq

/-- The slice of `struct config` (`config.h`) that the embedded routines
read. -/
structure Config where
  alpha : ℚ
  mu : ℚ
  lambda : ℚ
  cost_truck : ℚ
  cost_worker : ℚ
  cost_distance : ℚ
  max_move : ℤ
  best_moves : Bool
  rho : ℚ
  min_pheromone : ℚ
  deriving Repr

/-- The immutable slice of `struct problem` (`problemreader.h`).
`c_m w i j` is the cost matrix entry `pb->c_m[w][i][j]`; `c_m 0` is the
plain distance matrix. -/
structure Problem where
  num_nodes : ℕ
  capacity : ℚ
  c_m : ℕ → ℕ → ℕ → ℚ
  depot : Node

/-- `struct route` from `route.h`.  The doubly linked node list (including
the opening and closing depot clones) is a `List Node`; the `len` field of
the C struct is the list length. -/
structure Route where
  id : ℕ
  depot_id : ℕ
  nodes : List Node
  load : ℚ
  workers : ℕ
  deriving Repr, DecidableEq

/-- `route->len`. -/
def Route.len (r : Route) : ℕ := r.nodes.length

/-- The interior (customer) nodes of a route: everything strictly between
the opening and the closing depot clone. -/
def interior (r : Route) : List Node := (r.nodes.drop 1).dropLast

/-- All adjacent pairs `(n, n.next)` of a node list. -/
def adjacentPairs (l : List Node) : List (Node × Node) := l.zip (l.drop 1)

/-- `sum_demands` from `node.h` (sums the demand of `first..last`). -/
def sum_demands (l : List Node) : ℚ := l.foldr (fun n a => n.demand + a) 0

/-- The route invariants of spec §3 for a route with its owning problem:
depot sentinels, load consistency and capacity, the `aest`/`alst`
propagation equations for interior nodes, time-window feasibility and at
least one worker. -/
def route_invariants (pb : Problem) (r : Route) : Prop :=
  2 ≤ r.nodes.length ∧
  (∀ d ∈ r.nodes.take 1, d.id = DEPOT) ∧
  (∀ d ∈ r.nodes.drop (r.nodes.length - 1), d.id = DEPOT) ∧
  r.load = sum_demands (interior r) ∧
  r.load ≤ pb.capacity ∧
  (∀ pr ∈ adjacentPairs r.nodes, pr.2 ∈ interior r →
    pr.2.aest = max pr.2.est (pr.1.aest + pb.c_m r.workers pr.1.id pr.2.id)) ∧
  (∀ pr ∈ adjacentPairs r.nodes, pr.1 ∈ interior r →
    pr.1.alst = min pr.1.lst (pr.2.alst - pb.c_m r.workers pr.1.id pr.2.id)) ∧
  (∀ n ∈ r.nodes, n.aest ≤ n.lst) ∧
  1 ≤ r.workers

instance (pb : Problem) (r : Route) : Decidable (route_invariants pb r) := by
  unfold route_invariants
  infer_instance

/-- `can_insert_one` from `route.h` (lines 110-127): is inserting node `n`
between `pred` and `pred->next` feasible for the time windows?  `succ` is
`pred->next` in the C code. -/
def can_insert_one (pb : Problem) (r : Route) (n pred succ : Node) : Bool :=
  let c_m := pb.c_m r.workers
  let earliest_arrival := pred.aest + c_m pred.id n.id
  let latest_arrival := succ.alst - c_m n.id succ.id
  decide (earliest_arrival ≤ n.lst) && decide (latest_arrival ≥ n.est) &&
    decide (earliest_arrival ≤ latest_arrival)

/-- The single-node insertion test of the construction engine: the capacity
guard at the top of `calc_best_insertion` (route.c, lines 116-117) combined
with `can_insert_one`. -/
def insertion_accepted (pb : Problem) (r : Route) (n pred succ : Node) : Bool :=
  !(decide (pb.capacity < r.load + n.demand)) && can_insert_one pb r n pred succ

/-- The cache-mode forward propagation of `calc_ests` (route.c, lines
171-182) together with the per-node check of `is_feasible_with` (route.c,
lines 346-352): starting from the value `prevCache` at the node with id
`prevId`, propagate `aest_cache = max(est, prev_cache + c_m[prev][n])`
along the rest of the chain and test each propagated value against the
node's `lst`. -/
def est_cache_feasible (c_m : ℕ → ℕ → ℚ) : ℚ → ℕ → List Node → Bool
  | _, _, [] => true
  | prevCache, prevId, n :: rest =>
    let c := max n.est (prevCache + c_m prevId n.id)
    decide (c ≤ n.lst) && est_cache_feasible c_m c n.id rest

/-- `is_feasible_with` from route.c (lines 341-354): does the whole route
stay time-window feasible when run with `workers` workers?  Mirrors the
shortcut `if (route->workers == workers) return 1`.  The opening depot's
cache value is its `est` and is not checked (the C loop starts at
`route->nodes->next`). -/
def is_feasible_with (pb : Problem) (r : Route) (workers : ℕ) : Bool :=
  if r.workers = workers then true
  else
    match r.nodes with
    | [] => true
    | d :: rest => est_cache_feasible (pb.c_m workers) d.est d.id rest

/-- The cache-mode values themselves (`calc_ests` with `workers /=
route->workers`), as a list aligned with the input chain. -/
def est_cache_values (c_m : ℕ → ℕ → ℚ) : ℚ → ℕ → List Node → List ℚ
  | _, _, [] => []
  | prevCache, prevId, n :: rest =>
    let c := max n.est (prevCache + c_m prevId n.id)
    c :: est_cache_values c_m c n.id rest

/-- The `n->aest = n->aest_cache` copy loop of `reduce_service_workers`
(route.c, lines 439-443): overwrite every node's `aest` with the cache
value propagated for `workers` workers. -/
def copy_cache_to_aest (c_m : ℕ → ℕ → ℚ) (nodes : List Node) : List Node :=
  match nodes with
  | [] => []
  | d :: rest =>
    let d1 := { d with aest := d.est }
    d1 :: ((rest.zip (est_cache_values c_m d.est d.id rest)).map
      (fun p => { p.1 with aest := p.2 }))

/-- Backward step of `calc_lsts` (route.c, lines 189-199), processing a
REVERSED node list: `succ` is the already-updated successor; the final
element (the opening depot in route order) is left untouched because the C
loop `while (n->prev)` stops there. -/
def calc_lsts_go (c_m : ℕ → ℕ → ℚ) : Node → List Node → List Node
  | _, [] => []
  | _, [d] => [d]
  | s, n :: rest =>
    let n1 := { n with alst := min n.lst (s.alst - c_m n.id s.id) }
    n1 :: calc_lsts_go c_m n1 rest

/-- `calc_lsts(route, route->tail, workers)`: recompute every `alst` from
the closing depot backwards (the closing depot gets `alst = lst`; the
opening depot keeps its stored value). -/
def calc_lsts_full (c_m : ℕ → ℕ → ℚ) (nodes : List Node) : List Node :=
  match nodes.reverse with
  | [] => nodes
  | t :: rest =>
    let t1 := { t with alst := t.lst }
    (t1 :: calc_lsts_go c_m t1 rest).reverse

/-- The descending loop of `reduce_service_workers` (route.c, lines
436-446).  `cand` is the worker count tried next (the C variable
`workers`), `r` the route mutated so far, `reduced` the flag.  The loop
invariant of the C code is `cand = r.workers - 1`; the `cand = 0` base
case is the `workers >= 1` guard. -/
def rsw_loop (pb : Problem) : ℕ → Route → Bool → Route × Bool
  | 0, r, reduced => (r, reduced)
  | cand + 1, r, reduced =>
    if is_feasible_with pb r (cand + 1) then
      rsw_loop pb cand
        { r with workers := cand + 1,
                 nodes := copy_cache_to_aest (pb.c_m (cand + 1)) r.nodes }
        true
    else (r, reduced)

/-- `reduce_service_workers` from route.c (lines 433-451): decrement the
worker count while the route stays feasible, committing the cached `aest`
values on each step, and recompute the `alst` values once if anything was
reduced.  Returns the mutated route and the `reduced` flag. -/
def reduce_service_workers (pb : Problem) (r : Route) : Route × Bool :=
  let p := rsw_loop pb (r.workers - 1) r false
  if p.2 then
    ({ p.1 with nodes := calc_lsts_full (pb.c_m p.1.workers) p.1.nodes }, true)
  else p

/-- Forward step of the actual-value mode of `calc_ests` (route.c, lines
161-169): `p` is the already-updated predecessor; the closing depot (last
element) is left untouched because the C loop runs `while (n->next)`. -/
def calc_ests_go (c_m : ℕ → ℕ → ℚ) : Node → List Node → List Node
  | _, [] => []
  | _, [t] => [t]
  | p, n :: rest =>
    let n1 := { n with aest := max n.est (p.aest + c_m p.id n.id) }
    n1 :: calc_ests_go c_m n1 rest

/-- `calc_ests(route, n, route->workers)` in actual-value mode, where `n`
is the node at index `i`: recompute `aest` from index `i` forward (from the
opening depot when `i = 0`), leaving the closing depot untouched. -/
def calc_ests_from (c_m : ℕ → ℕ → ℚ) (nodes : List Node) (i : ℕ) : List Node :=
  if i = 0 then
    match nodes with
    | [] => []
    | d :: rest =>
      let d1 := { d with aest := d.est }
      d1 :: calc_ests_go c_m d1 rest
  else
    match (nodes.take i).getLast? with
    | none => nodes
    | some p => nodes.take i ++ calc_ests_go c_m p (nodes.drop i)

/-- `calc_lsts(route, n, workers)` where `n` is the node at index `j`:
recompute `alst` from index `j` backward to index 1 (the opening depot is
never written).  When `j` is the closing depot its `alst` is set to its
`lst` first. -/
def calc_lsts_from (c_m : ℕ → ℕ → ℚ) (nodes : List Node) (j : ℕ) : List Node :=
  let rev := nodes.reverse
  let k := nodes.length - 1 - j
  if k = 0 then calc_lsts_full c_m nodes
  else
    match rev.get? (k - 1) with
    | none => nodes
    | some s => (rev.take k ++ calc_lsts_go c_m s (rev.drop k)).reverse

/-- `add_nodes_noupdate` from route.c (lines 80-91): splice the `window`
in after the node at index `afterIdx`, bumping `load` (and implicitly
`len`). -/
def add_nodes_noupdate (r : Route) (window : List Node) (afterIdx : ℕ) : Route :=
  { r with load := r.load + sum_demands window,
           nodes := r.nodes.take (afterIdx + 1) ++ window ++ r.nodes.drop (afterIdx + 1) }

/-- `add_nodes` from route.c (lines 69-73): splice, then recompute ests
from the first inserted node and lsts from the last inserted node. -/
def add_nodes (pb : Problem) (r : Route) (window : List Node) (afterIdx : ℕ) : Route :=
  let r1 := add_nodes_noupdate r window afterIdx
  let r2 := { r1 with nodes := calc_ests_from (pb.c_m r1.workers) r1.nodes (afterIdx + 1) }
  { r2 with nodes := calc_lsts_from (pb.c_m r2.workers) r2.nodes (afterIdx + window.length) }

/-- `remove_nodes_noupdate` from route.c (lines 537-548): splice the `len`
nodes starting at index `winIdx` out of the route, decrementing `load`. -/
def remove_nodes_noupdate (r : Route) (winIdx len : ℕ) : Route :=
  { r with load := r.load - sum_demands ((r.nodes.drop winIdx).take len),
           nodes := r.nodes.take winIdx ++ r.nodes.drop (winIdx + len) }

/-- `remove_nodes` from route.c (lines 501-506): splice out, then
recompute ests from the node now at `winIdx` and lsts from its
predecessor. -/
def remove_nodes (pb : Problem) (r : Route) (winIdx len : ℕ) : Route :=
  let r1 := remove_nodes_noupdate r winIdx len
  let r2 := { r1 with nodes := calc_ests_from (pb.c_m r1.workers) r1.nodes winIdx }
  { r2 with nodes := calc_lsts_from (pb.c_m r2.workers) r2.nodes (winIdx - 1) }

/-- `calc_length` from route.c (lines 203-212): total distance of the
route under the distance matrix `c_m[0]`. -/
def calc_length (pb : Problem) (r : Route) : ℚ :=
  (adjacentPairs r.nodes).foldr (fun pr a => pb.c_m 0 pr.1.id pr.2.id + a) 0

/-- `struct solution` from solution.h.  The `routes` array together with
its live count `trucks` is modelled as the list of the `trucks` live
routes; slots past the end of the list correspond to the cleared/garbage
slots of the C array. -/
structure Solution where
  routes : List Route
  unrouted : List Node
  num_unrouted : ℕ
  time : ℤ
  saturation_time : ℤ
  workers_cache : ℤ
  dist_cache : ℚ
  cost_cache : ℚ
  deriving Repr, DecidableEq

/-- `sol->trucks`. -/
def Solution.trucks (s : Solution) : ℕ := s.routes.length

/-- `clone_node` from node.c (lines 10-26): copy every data field (the
scratch caches, reset to -1 by the C code, are not modelled). -/
def clone_node (n : Node) : Node :=
  { id := n.id, demand := n.demand, est := n.est, lst := n.lst,
    service_time := n.service_time, aest := n.aest, alst := n.alst }

/-- `clone_route` from route.c (lines 218-237): fresh route with the same
scalar fields and a freshly cloned node chain. -/
def clone_route (r : Route) : Route :=
  { id := r.id, depot_id := r.depot_id, nodes := r.nodes.map clone_node,
    load := r.load, workers := r.workers }

/-- `clone_solution` from solution.c (lines 143-176): copy the scalar and
cached fields, clone each live route, clone the unrouted chain. -/
def clone_solution (s : Solution) : Solution :=
  { routes := s.routes.map clone_route,
    unrouted := s.unrouted.map clone_node,
    num_unrouted := s.num_unrouted,
    time := s.time,
    saturation_time := s.saturation_time,
    workers_cache := s.workers_cache,
    dist_cache := s.dist_cache,
    cost_cache := s.cost_cache }

/-- `calc_cost` from solution.h (main sources, lines 197-201). -/
def calc_cost (cfg : Config) (trucks : ℕ) (workers : ℤ) (distance : ℚ) : ℚ :=
  distance * cfg.cost_distance + workers * cfg.cost_worker + trucks * cfg.cost_truck

/-- Sum of the worker counts of a route list. -/
def workers_sum (l : List Route) : ℤ :=
  l.foldr (fun r a => (r.workers : ℤ) + a) 0

/-- The total number of workers of a solution (the sum computed by
`calc_costs`/`calc_workers` in solution.c). -/
def total_workers (s : Solution) : ℤ :=
  workers_sum s.routes

/-- The total distance of a solution (the sum computed by
`calc_costs`/`calc_dist` in solution.c). -/
def total_dist (pb : Problem) (s : Solution) : ℚ :=
  s.routes.foldr (fun r a => calc_length pb r + a) 0

/-- `calc_costs` from solution.c (lines 104-116), as the returned value
(the C function also stores the three sums into the solution's cache
fields; callers compare the returned value). -/
def calc_costs (pb : Problem) (cfg : Config) (s : Solution) : ℚ :=
  calc_cost cfg s.trucks (total_workers s) (total_dist pb s)

/-- `get_route_index` from solution.c (lines 218-225); `none` models the
fatal-error exit when the id is not found. -/
def get_route_index : List Route → ℕ → Option ℕ
  | [], _ => none
  | r :: rest, rid =>
    if r.id = rid then some 0 else (get_route_index rest rid).map (fun i => i + 1)

/-- `remove_route` from solution.c (lines 230-241): fatal (`none`) unless
the route at `route_idx` is empty (`len == EMPTY`, i.e. only the two depot
clones); otherwise free it, shift the tail of the array down and clear the
vacated slot (modelled by `List.eraseIdx`). -/
def remove_route (sol : Solution) (route_idx : ℕ) : Option Solution :=
  match sol.routes.get? route_idx with
  | none => none
  | some r =>
    if r.nodes.length = 2 then
      some { sol with routes := sol.routes.eraseIdx route_idx }
    else none

/-- `new_route` from route.c (lines 43-62): open a fresh route
`[depot, seed, depot]` with id `sol->trucks` and depot id
`num_nodes + sol->trucks`, compute its ests/lsts, and append it to the
solution. -/
def new_route (pb : Problem) (sol : Solution) (seed : Node) (workers : ℕ) :
    Route × Solution :=
  let nodes0 := [clone_node pb.depot, seed, clone_node pb.depot]
  let nodes1 := calc_ests_from (pb.c_m workers) nodes0 0
  let nodes2 := calc_lsts_full (pb.c_m workers) nodes1
  let route : Route :=
    { id := sol.trucks, depot_id := pb.num_nodes + sol.trucks,
      nodes := nodes2, load := seed.demand, workers := workers }
  (route, { sol with routes := sol.routes ++ [route] })

/-- `struct move` from local_search.h.  The C struct holds pointers
`source`, `target`, `first`, `last`, `after`; here `window` is the node
run `first..last`, `winIdx` the index of `first` within `source.nodes`
and `afterIdx` the index of `after` within `target.nodes` (the `next`/
`prev` list links are dropped). -/
structure Move where
  source : Route
  target : Route
  window : List Node
  winIdx : ℕ
  afterIdx : ℕ
  delta_trucks : ℤ
  delta_workers : ℤ
  delta_dist : ℚ
  improving : Bool
  deriving Repr, DecidableEq

/-- The NULL route pointer of an initialized move. -/
def null_route : Route := { id := 0, depot_id := 0, nodes := [], load := 0, workers := 0 }

/-- `init_move` from local_search.h (lines 51-62): reset the move; a
non-improving move starts with `delta_dist = -DBL_MAX`. -/
def init_move (improving : Bool) : Move :=
  { source := null_route, target := null_route, window := [], winIdx := 0,
    afterIdx := 0, delta_trucks := 0, delta_workers := 0,
    delta_dist := if improving then 0 else -DBL_MAX, improving := improving }

/-- `delta_is_higher` from local_search.c (lines 49-60): is the candidate
delta triple better than the incumbent move's under the hierarchical
(trucks, workers, distance) comparison, with tolerance `MIN_DELTA` on the
distance? -/
def delta_is_higher (m : Move) (d_trucks d_workers : ℤ) (d_dist : ℚ) : Bool :=
  if d_trucks ≠ 0 && m.delta_trucks = 0 then true
  else if d_trucks = m.delta_trucks then
    if d_workers > m.delta_workers then true
    else if d_workers = m.delta_workers && d_dist - MIN_DELTA > m.delta_dist then true
    else false
  else false

/-- `struct tabulist` from tabu_search.h: `nodes_routes k r` is the matrix
entry `tl->nodes_routes[k][r]`. -/
structure Tabulist where
  active : Bool
  iteration : ℕ
  nodes_routes_tabutime : ℕ
  nodes_routes : ℕ → ℕ → ℕ

/-- `is_move_tabu` from tabu_search.c (lines 82-91), on the id list of the
moved nodes `first..last` and the target route's id: tabu iff any moved
node's entry for the target route exceeds the iteration counter. -/
def is_move_tabu (tl : Tabulist) (nodeIds : List ℕ) (targetId : ℕ) : Bool :=
  if !tl.active then false
  else nodeIds.any (fun k => decide (tl.nodes_routes k targetId > tl.iteration))

/-- `update_tabulist_move` from tabu_search.c (lines 145-154): increment
the iteration counter first, then stamp
`nodes_routes[k][source_id] = iteration + tabutime` for every moved node
`k`. -/
def update_tabulist_move (tl : Tabulist) (nodeIds : List ℕ) (sourceId : ℕ) : Tabulist :=
  if !tl.active then tl
  else
    { tl with
      iteration := tl.iteration + 1,
      nodes_routes := fun i j =>
        if i ∈ nodeIds ∧ j = sourceId then tl.iteration + 1 + tl.nodes_routes_tabutime
        else tl.nodes_routes i j }

/-- `can_insert` from route.h (lines 133-147): simulate inserting the run
`window` after the node at `afterIdx` of `target` by propagating scratch
est values through the run and finally checking arrival at
`after->next`. -/
def can_insert (pb : Problem) (target : Route) (window : List Node) (afterIdx : ℕ) : Bool :=
  match target.nodes.get? afterIdx, target.nodes.get? (afterIdx + 1), window with
  | some after, some succ, w0 :: rest =>
    let c_m := pb.c_m target.workers
    let c0 := max (after.aest + c_m after.id w0.id) w0.est
    if c0 > w0.lst then false
    else can_insert_chain c_m succ c0 w0.id rest
  | _, _, _ => false
where
  /-- The `while (first != last)` propagation plus the final
  `last->aest_cache + c_m[last][after->next] <= after->next->alst` test. -/
  can_insert_chain (c_m : ℕ → ℕ → ℚ) (succ : Node) : ℚ → ℕ → List Node → Bool
    | cache, lastId, [] => decide (cache + c_m lastId succ.id ≤ succ.alst)
    | cache, lastId, n :: rest =>
      let c := max (cache + c_m lastId n.id) n.est
      if c > n.lst then false else can_insert_chain c_m succ c n.id rest

/-- The `while` loop of `move_reduces_workers` (local_search.c, lines
109-111): try reductions `minr, minr+1, ...` (bounded by `maxr`) while the
spliced route stays feasible; return the last feasible one (`reduction`).
`fuel` bounds the iteration count. -/
def mrw_loop (pb : Problem) (spliced : Route) (maxr : ℤ) :
    ℕ → ℤ → ℤ → ℤ
  | 0, _, reduction => reduction
  | fuel + 1, minr, reduction =>
    if minr ≤ maxr &&
        is_feasible_with pb spliced ((spliced.workers : ℤ) - minr).toNat then
      mrw_loop pb spliced maxr fuel (minr + 1) minr
    else reduction

/-- `move_reduces_workers` from local_search.c (lines 102-115): splice the
window `[winIdx, winIdx+len)` out of `source` (pointer surgery only: load
and workers stay), then count how many workers could be dropped, starting
from `min_reduction` (or 1 when it is 0). -/
def move_reduces_workers (pb : Problem) (source : Route) (winIdx len : ℕ)
    (min_reduction : ℤ) : ℤ :=
  let max_reduction : ℤ := (source.workers : ℤ) - 1
  let minr : ℤ := if min_reduction = 0 then 1 else min_reduction
  let spliced : Route :=
    { source with nodes := source.nodes.take winIdx ++ source.nodes.drop (winIdx + len) }
  mrw_loop pb spliced max_reduction (max_reduction + 1 - minr).toNat minr 0

/-- `calc_delta_dist_move` from local_search.c (lines 37-43), on node ids:
`pv/f/l/nx` are `first->prev`, `first`, `last`, `last->next` on the source
route and `af/an` are `after`, `after->next` on the target route. -/
def calc_delta_dist_move (d : ℕ → ℕ → ℚ) (pv f l nx af an : ℕ) : ℚ :=
  d pv f + d l nx - d pv nx + d af an - d af f - d l an

/-- The inner `while (after != target->tail)` loop of `update_move`
(local_search.c, lines 387-405) for one fixed window: scan the insertion
positions `a` of the target route, recording a candidate when its deltas
beat the incumbent, the insertion is feasible and the move is not tabu.
Returns `(move, updated, stop)`; `stop` models the early `return 1` of
first-improvement mode. -/
def um_inner (pb : Problem) (cfg : Config) (tl : Tabulist) (source target : Route)
    (window : List Node) (winIdx pvId fId lId nxId : ℕ) (dt dw : ℤ) :
    List ℕ → Move → Bool → Move × Bool × Bool
  | [], m, upd => (m, upd, false)
  | a :: rest, m, upd =>
    match target.nodes.get? a, target.nodes.get? (a + 1) with
    | some after, some an =>
      let dd := calc_delta_dist_move (pb.c_m 0) pvId fId lId nxId after.id an.id
      if delta_is_higher m dt dw dd then
        if can_insert pb target window a then
          let cand : Move :=
            { source := source, target := target, window := window,
              winIdx := winIdx, afterIdx := a, delta_trucks := dt,
              delta_workers := dw, delta_dist := dd, improving := m.improving }
          if !is_move_tabu tl (window.map Node.id) target.id then
            if !cfg.best_moves then (cand, true, true)
            else um_inner pb cfg tl source target window winIdx pvId fId lId nxId dt dw
              rest cand true
          else um_inner pb cfg tl source target window winIdx pvId fId lId nxId dt dw
            rest m upd
        else um_inner pb cfg tl source target window winIdx pvId fId lId nxId dt dw
          rest m upd
      else um_inner pb cfg tl source target window winIdx pvId fId lId nxId dt dw
        rest m upd
    | _, _ => um_inner pb cfg tl source target window winIdx pvId fId lId nxId dt dw
        rest m upd

/-- The outer `while (last->next)` loop of `update_move` (local_search.c,
lines 378-409), scanning the window start indices `s` of the source route:
skip windows breaking the target's capacity, recompute `delta_workers` via
`move_reduces_workers` only when the source would not be emptied and the
state is at least `REDUCE_WORKERS`, and run the inner position scan. -/
def um_outer (pb : Problem) (cfg : Config) (tl : Tabulist) (source target : Route)
    (state len : ℕ) (dtB : Bool) (dw0 : ℤ) :
    List ℕ → Move → Bool → Move × Bool
  | [], m, upd => (m, upd)
  | s :: rest, m, upd =>
    let window := (source.nodes.drop s).take len
    if pb.capacity < target.load + sum_demands window then
      um_outer pb cfg tl source target state len dtB dw0 rest m upd
    else
      match source.nodes.get? (s - 1), source.nodes.get? s,
            source.nodes.get? (s + len - 1), source.nodes.get? (s + len) with
      | some pv, some f, some l, some nx =>
        let dw := if REDUCE_WORKERS ≤ state ∧ dtB = false then
            move_reduces_workers pb source s len m.delta_workers
          else dw0
        let dt : ℤ := if dtB then 1 else 0
        let res := um_inner pb cfg tl source target window s pv.id f.id l.id nx.id dt dw
          (List.range (target.nodes.length - 1)) m upd
        if res.2.2 then (res.1, true)
        else um_outer pb cfg tl source target state len dtB dw0 rest res.1 res.2.1
      | _, _, _, _ => um_outer pb cfg tl source target state len dtB dw0 rest m upd

/-- `update_move` from local_search.c (lines 364-411): update `m` with a
better move of `len` consecutive nodes from `source` to `target` if one
exists.  Returns `(updated, m)`. -/
def update_move (pb : Problem) (cfg : Config) (tl : Tabulist) (m : Move)
    (source target : Route) (state len : ℕ) : Bool × Move :=
  if cfg.max_move < (len : ℤ) then (false, m)
  else if source.nodes.length < 2 + len then (false, m)
  else
    let dtB : Bool := decide (source.nodes.length = 2 + len)
    let dw0 : ℤ := if dtB then (source.workers : ℤ) else 0
    if m.delta_trucks = 1 ∧ dtB = false then (false, m)
    else
      let starts := (List.range (source.nodes.length - 1 - len)).map (fun i => i + 1)
      let res := um_outer pb cfg tl source target state len dtB dw0 starts m false
      (res.2, res.1)

/-- Apply `f` to the solution's route whose id matches `rid` (the pointer
`m->source`/`m->target` of the C code denotes that same route object in
`sol->routes`; the pure model locates it by its id). -/
def update_route_by_id (sol : Solution) (rid : ℕ) (f : Route → Route) : Solution :=
  { sol with routes := sol.routes.map (fun r => if r.id = rid then f r else r) }

/-- `perform_move` from local_search.c (lines 277-294): no-op on a null
move; otherwise stamp the tabu list, detach the window from the source
route (dropping the route entirely for a truck-saving move, dropping
workers for a worker-saving move), and re-attach the window on the target
route.  `none` models the fatal exits of `get_route_index`/`remove_route`.
(The final `init_move` of the C code resets the caller's scratch move and
is dropped here.) -/
def perform_move (pb : Problem) (tl : Tabulist) (sol : Solution) (m : Move) :
    Option (Tabulist × Solution) :=
  if m.window.isEmpty then some (tl, sol)
  else
    let tl1 := update_tabulist_move tl (m.window.map Node.id) m.source.id
    if m.delta_trucks ≠ 0 then
      let sol1 := update_route_by_id sol m.source.id
        (fun r => remove_nodes_noupdate r m.winIdx m.window.length)
      match get_route_index sol1.routes m.source.id with
      | none => none
      | some idx =>
        match remove_route sol1 idx with
        | none => none
        | some sol2 =>
          some (tl1, update_route_by_id sol2 m.target.id
            (fun r => add_nodes pb r m.window m.afterIdx))
    else if m.delta_workers ≠ 0 then
      let sol1 := update_route_by_id sol m.source.id (fun r =>
        let r1 := remove_nodes_noupdate r m.winIdx m.window.length
        let r2 := { r1 with workers := ((r1.workers : ℤ) - m.delta_workers).toNat }
        let r3 := { r2 with nodes := calc_ests_from (pb.c_m r2.workers) r2.nodes 0 }
        { r3 with nodes := calc_lsts_full (pb.c_m r3.workers) r3.nodes })
      some (tl1, update_route_by_id sol1 m.target.id
        (fun r => add_nodes pb r m.window m.afterIdx))
    else
      let sol1 := update_route_by_id sol m.source.id
        (fun r => remove_nodes pb r m.winIdx m.window.length)
      some (tl1, update_route_by_id sol1 m.target.id
        (fun r => add_nodes pb r m.window m.afterIdx))

/-- `struct insertion` from route.h (the `next`/`prev` list links are
dropped; `afterIdx` is the index of the `after` node in the target
route). -/
structure Insertion where
  target : Route
  node : Node
  afterIdx : ℕ
  cost : ℚ
  attractiveness : ℚ
  deriving Repr, DecidableEq

/-- The position loop of `get_best_insertion` (route.c, lines 266-294).
For each feasible position the C code computes the distance term, then in
the `alpha2` branch first executes `cost *= alpha` and immediately
overwrites `cost` with `alpha2 * (est_succ - after->next->aest)`, so the
distance term is discarded; the attractiveness floors negative values to
`MIN_DELTA`; the best (strictly larger attractiveness) insertion wins,
earlier positions winning ties. -/
def gbi_loop (pb : Problem) (cfg : Config) (r : Route) (n : Node) :
    List ℕ → Option Insertion → Option Insertion
  | [], best => best
  | a :: rest, best =>
    match r.nodes.get? a, r.nodes.get? (a + 1) with
    | some after, some succ =>
      if can_insert_one pb r n after succ then
        let d := pb.c_m 0
        let c_m := pb.c_m r.workers
        let alpha2 := 1 - cfg.alpha
        let cost0 := d after.id n.id + d n.id succ.id - cfg.mu * d after.id succ.id
        let cost :=
          if alpha2 ≠ 0 then
            let est_node := max n.est (after.aest + c_m after.id n.id)
            let est_succ := max succ.aest (est_node + c_m n.id succ.id)
            alpha2 * (est_succ - succ.aest)
          else cost0
        let attract0 := cfg.lambda * d DEPOT n.id - cost
        let attract := if attract0 < 0 then MIN_DELTA else attract0
        let best1 :=
          match best with
          | none => some (Insertion.mk r n a cost attract)
          | some b =>
            if attract > b.attractiveness then some (Insertion.mk r n a cost attract)
            else some b
        gbi_loop pb cfg r n rest best1
      else gbi_loop pb cfg r n rest best
    | _, _ => gbi_loop pb cfg r n rest best

/-- `get_best_insertion` from route.c (lines 258-296): the best insertion
of node `n` on route `r`, or `none` when the capacity would be exceeded or
no position is feasible. -/
def get_best_insertion (pb : Problem) (cfg : Config) (r : Route) (n : Node) :
    Option Insertion :=
  if pb.capacity < r.load + n.demand then none
  else gbi_loop pb cfg r n (List.range (r.nodes.length - 1)) none

/-- The decay double loop of `update_pheromone` (local_search.c, lines
1061-1065): every cell with both indices in `[1, 2*num_nodes-2]` becomes
`max(rho * p, min_pheromone)`. -/
def pheromone_decay (p_m : ℕ → ℕ → ℚ) (num_nodes : ℕ) (rho minp : ℚ) :
    ℕ → ℕ → ℚ :=
  fun i j =>
    if 1 ≤ i ∧ i < 2 * num_nodes - 1 ∧ 1 ≤ j ∧ j < 2 * num_nodes - 1 then
      max (p_m i j * rho) minp
    else p_m i j

/-- A single `p_m[i][j] += v` reinforcement write. -/
def add_pheromone (p_m : ℕ → ℕ → ℚ) (e : ℕ × ℕ) (v : ℚ) : ℕ → ℕ → ℚ :=
  fun i j => if i = e.1 ∧ j = e.2 then p_m i j + v else p_m i j

/-- The cells reinforced for route number `ridx` by `update_pheromone`
(local_search.c, lines 1066-1074): virtual depot to first customer, last
customer to virtual depot, and each interior consecutive pair.  (On a
route without customers the C code dereferences a null pointer; the claim
is only about solutions whose routes carry customers.) -/
def route_pheromone_edges (num_nodes ridx : ℕ) (r : Route) : List (ℕ × ℕ) :=
  let ids := (interior r).map Node.id
  match ids with
  | [] => []
  | c0 :: _ =>
    (num_nodes + ridx, c0) :: (ids.getLastD c0, num_nodes + ridx) ::
      ids.zip (ids.drop 1)

/-- `update_pheromone` from local_search.c (lines 1055-1082): decay every
non-reserved cell, then add `1 - rho` along the incumbent's edges (the
pheromone matrix lives in `pb->pheromone`; it is passed and returned
explicitly here). -/
def update_pheromone (cfg : Config) (num_nodes : ℕ) (p_m : ℕ → ℕ → ℚ)
    (sol : Solution) : ℕ → ℕ → ℚ :=
  let decayed := pheromone_decay p_m num_nodes cfg.rho cfg.min_pheromone
  let edges :=
    (sol.routes.enum.map (fun p => route_pheromone_edges num_nodes p.1 p.2)).flatten
  edges.foldl (fun acc e => add_pheromone acc e (1 - cfg.rho)) decayed

/-- The index-range side condition of claim C5: every route of the
solution has at least one customer, its virtual depot id `num_nodes + r`
is a non-reserved index, and every interior node id is a non-reserved
index. -/
def pheromone_ids_in_range (num_nodes : ℕ) (sol : Solution) : Prop :=
  ∀ p ∈ sol.routes.enum,
    interior p.2 ≠ [] ∧
    1 ≤ num_nodes + p.1 ∧ num_nodes + p.1 ≤ 2 * num_nodes - 2 ∧
    ∀ n ∈ interior p.2, 1 ≤ n.id ∧ n.id ≤ 2 * num_nodes - 2

instance (num_nodes : ℕ) (sol : Solution) :
    Decidable (pheromone_ids_in_range num_nodes sol) := by
  unfold pheromone_ids_in_range
  infer_instance

/-- `ULONG_MAX` on the 64-bit platform the cache assumes
(`18,446,744,073,709,551,615`, see cache.cpp). -/
def U64_MAX : ℕ := 18446744073709551615

/-- The `std::map<unsigned long, unsigned long>` of `Cache`, as an
association list. -/
def assoc_find : List (ℕ × ℕ) → ℕ → Option ℕ
  | [], _ => none
  | (k, v) :: rest, key => if k = key then some v else assoc_find rest key

/-- Insert-or-overwrite for the association list (the effect of
`m_cache[key] = val` / `pair->second = val`). -/
def assoc_set : List (ℕ × ℕ) → ℕ → ℕ → List (ℕ × ℕ)
  | [], key, val => [(key, val)]
  | (k, v) :: rest, key, val =>
    if k = key then (k, val) :: rest else (k, v) :: assoc_set rest key val

/-- `class Cache` from cache.hpp. -/
structure Cache where
  m_cache : List (ℕ × ℕ)
  m_factor : ℕ
  deriving Repr, DecidableEq

/-- The `Cache` constructor (cache.cpp, lines 19-22):
`m_factor = numeric_limits<unsigned long>::max() / pb.num_nodes` (integer
division). -/
def Cache.init (pb : Problem) : Cache :=
  { m_cache := [], m_factor := U64_MAX / pb.num_nodes }

/-- `Cache::hash` (cache.cpp, lines 71-93):
`static_cast<unsigned long>(cost_cache * m_factor)`; the cast truncates
toward zero, which for the nonnegative in-range costs the claim speaks
about is the floor (`Int.toNat` clamps the negative case). -/
def Cache.hash (c : Cache) (s : Solution) : ℕ :=
  (⌊s.cost_cache * (c.m_factor : ℚ)⌋).toNat

/-- `Cache::add` (cache.cpp, lines 32-35): `m_cache[hash(s)] = 1`. -/
def Cache.add (c : Cache) (s : Solution) : Cache :=
  { c with m_cache := assoc_set c.m_cache (c.hash s) 1 }

/-- `Cache::contains` (cache.cpp, lines 43-52): 0 and no change when the
hash is absent; otherwise increment the stored counter and return the new
value. -/
def Cache.contains (c : Cache) (s : Solution) : ℕ × Cache :=
  match assoc_find c.m_cache (c.hash s) with
  | none => (0, c)
  | some v => (v + 1, { c with m_cache := assoc_set c.m_cache (c.hash s) (v + 1) })

/-- The data of a node chain that the est-propagation feasibility checks
read: id, input time window, demand is irrelevant.  Mutations of the
cached `aest`/`alst` fields leave this signature unchanged, which is what
makes `reduce_service_workers` idempotent. -/
def node_sig (l : List Node) : List (ℕ × ℚ × ℚ) :=
  l.map (fun n => (n.id, n.est, n.lst))

/-- The pure part of `is_feasible_with` (without the
`route->workers == workers` shortcut): propagate from the opening depot
and check every later node. -/
def chain_feasible (c_m : ℕ → ℕ → ℚ) (nodes : List Node) : Bool :=
  match nodes with
  | [] => true
  | d :: rest => est_cache_feasible c_m d.est d.id rest

/-! Concrete witness inputs (a 2-node instance: the depot and one
customer; every off-diagonal traversal costs 2). -/

/-- A depot clone: id 0, window `[0, 100]`, `aest 0`, `alst 100`. -/
def node0 : Node :=
  { id := 0, demand := 0, est := 0, lst := 100, service_time := 0, aest := 0, alst := 100 }

/-- A customer node: id 1, demand 1, window `[0, 100]`. -/
def nodeK : Node :=
  { id := 1, demand := 1, est := 0, lst := 100, service_time := 0, aest := 0, alst := 0 }

/-- The customer as positioned on `rW6` (cached values consistent with the
propagation equations for 2 workers). -/
def nodeC : Node :=
  { id := 1, demand := 1, est := 0, lst := 100, service_time := 0, aest := 2, alst := 98 }

/-- A tiny concrete problem: 2 nodes, capacity 10, all traversals cost 2
(0 on the diagonal) for every worker count. -/
def pbW : Problem :=
  { num_nodes := 2, capacity := 10,
    c_m := fun _ i j => if i = j then 0 else 2, depot := node0 }

/-- An empty route (only the two depot clones). -/
def rW : Route :=
  { id := 0, depot_id := 2, nodes := [node0, node0], load := 0, workers := 1 }

/-- A one-customer route with 2 workers and consistent cached times. -/
def rW6 : Route :=
  { id := 0, depot_id := 2, nodes := [node0, nodeC, node0], load := 1, workers := 2 }

/-- A second route (distinct id) used as a move target. -/
def rTgt : Route :=
  { id := 1, depot_id := 3, nodes := [node0, node0], load := 0, workers := 1 }

/-- A baseline configuration for the witnesses. -/
def cfgW : Config :=
  { alpha := 1, mu := 1, lambda := 2, cost_truck := 1, cost_worker := 1 / 10,
    cost_distance := 1 / 10000, max_move := 2, best_moves := true,
    rho := 1 / 2, min_pheromone := 1 / 10 }

/-- The configuration exhibiting the `get_best_insertion` cost overwrite:
`alpha = 1/2` activates the `alpha2` branch. -/
def cfgC2 : Config :=
  { alpha := 1 / 2, mu := 1, lambda := 0, cost_truck := 1, cost_worker := 1 / 10,
    cost_distance := 1 / 10000, max_move := 2, best_moves := true,
    rho := 1 / 2, min_pheromone := 1 / 10 }

/-- A one-route solution for the pheromone witness. -/
def solW : Solution :=
  { routes := [rW6], unrouted := [], num_unrouted := 0, time := 0,
    saturation_time := 0, workers_cache := 0, dist_cache := 0, cost_cache := 0 }

/-- A solution holding one empty route (for `remove_route`). -/
def solW9 : Solution :=
  { routes := [rW], unrouted := [nodeK], num_unrouted := 1, time := 0,
    saturation_time := 0, workers_cache := 0, dist_cache := 0, cost_cache := 0 }

/-- A two-route solution: the one-customer route `rW6` and the empty
target `rTgt` (for `perform_move`). -/
def solW10 : Solution :=
  { routes := [rW6, rTgt], unrouted := [], num_unrouted := 0, time := 0,
    saturation_time := 0, workers_cache := 0, dist_cache := 0, cost_cache := 0 }

/-- A truck-saving move of the single customer of `rW6` onto `rTgt`. -/
def mW10 : Move :=
  { source := rW6, target := rTgt, window := [nodeC], winIdx := 1, afterIdx := 0,
    delta_trucks := 1, delta_workers := 2, delta_dist := 0, improving := true }

/-- An inactive tabu list (non-TS drivers). -/
def tlOff : Tabulist :=
  { active := false, iteration := 0, nodes_routes_tabutime := 50,
    nodes_routes := fun _ _ => 0 }

/-- An active tabu list with `tabutime = 2`. -/
def tlOn : Tabulist :=
  { active := true, iteration := 0, nodes_routes_tabutime := 2,
    nodes_routes := fun _ _ => 0 }

/-- A cache carrying one unrelated entry, with factor 3. -/
def cacheW : Cache := { m_cache := [(5, 2)], m_factor := 3 }

/-- A solution whose cached cost is 2 (hash `⌊2·3⌋ = 6` under `cacheW`). -/
def solC8 : Solution :=
  { routes := [], unrouted := [], num_unrouted := 0, time := 0,
    saturation_time := 0, workers_cache := 0, dist_cache := 0, cost_cache := 2 }

/-- A structurally different solution with the same cached cost 2. -/
def solC8b : Solution :=
  { routes := [rW], unrouted := [], num_unrouted := 0, time := 0,
    saturation_time := 0, workers_cache := 0, dist_cache := 0, cost_cache := 2 }

/-! ## Theorems -/

/-- Claim C3: for an incumbent move with `delta_trucks ∈ {0,1}` and a
candidate with `d_trucks ∈ {0,1}`, `delta_is_higher` returns 1 exactly
when the candidate triple is lexicographically strictly greater than the
incumbent's, the distance component counting as greater only when
`d_dist - MIN_DELTA > m.delta_dist`. -/
theorem delta_is_higher_iff_lex (m : Move) (d_trucks d_workers : ℤ) (d_dist : ℚ)
    (hm : m.delta_trucks = 0 ∨ m.delta_trucks = 1)
    (hd : d_trucks = 0 ∨ d_trucks = 1) :
    delta_is_higher m d_trucks d_workers d_dist = true ↔
      (d_trucks > m.delta_trucks ∨
        (d_trucks = m.delta_trucks ∧
          (d_workers > m.delta_workers ∨
            (d_workers = m.delta_workers ∧ d_dist - MIN_DELTA > m.delta_dist)))) := by
  rcases hm with h1 | h1 <;> rcases hd with h2 | h2 <;>
    simp only [delta_is_higher, h1, h2] <;> norm_num <;>
    split_ifs with hw hdist <;> simp_all <;> omega

/-- Witness for C3: a truck-saving candidate against a fresh incumbent. -/
theorem delta_is_higher_iff_lex_witness :
    delta_is_higher (init_move true) 1 0 0 = true ↔
      ((1 : ℤ) > (init_move true).delta_trucks ∨
        ((1 : ℤ) = (init_move true).delta_trucks ∧
          ((0 : ℤ) > (init_move true).delta_workers ∨
            ((0 : ℤ) = (init_move true).delta_workers ∧
              (0 : ℚ) - MIN_DELTA > (init_move true).delta_dist)))) :=
  delta_is_higher_iff_lex (init_move true) 1 0 0 (Or.inl rfl) (Or.inr rfl)

/-- Claim C1: on a route whose cached `aest`/`alst` satisfy the §3
invariants, for a position `pred` with successor `succ` (so not the
closing depot) and a node `k` with `est(k) ≤ lst(k)`, the construction
engine's single-node test (`can_insert_one` plus `calc_best_insertion`'s
capacity guard) accepts exactly when the spec's four-conjunct feasibility
formula holds. -/
theorem insertion_accept_iff (pb : Problem) (r : Route) (pred succ k : Node) (i : ℕ)
    (hp : r.nodes.get? i = some pred) (hs : r.nodes.get? (i + 1) = some succ)
    (hinv : route_invariants pb r) (hk : k.est ≤ k.lst) :
    insertion_accepted pb r k pred succ = true ↔
      (max (pred.aest + pb.c_m r.workers pred.id k.id) k.est ≤ k.lst ∧
       succ.alst - pb.c_m r.workers k.id succ.id ≥ k.est ∧
       pred.aest + pb.c_m r.workers pred.id k.id ≤
         succ.alst - pb.c_m r.workers k.id succ.id ∧
       r.load + k.demand ≤ pb.capacity) := by
  simp only [insertion_accepted, can_insert_one, Bool.and_eq_true, decide_eq_true_eq,
    Bool.not_eq_true', decide_eq_false_iff_not, not_lt, ge_iff_le, max_le_iff]
  constructor
  · rintro ⟨hcap, ⟨hea, hla⟩, hei⟩
    exact ⟨⟨hea, hk⟩, hla, hei, hcap⟩
  · rintro ⟨⟨hea, _⟩, hla, hei, hcap⟩
    exact ⟨hcap, ⟨hea, hla⟩, hei⟩

/-- Witness for C1: inserting the customer into the empty route of the
2-node instance. -/
theorem insertion_accept_iff_witness :
    insertion_accepted pbW rW nodeK node0 node0 = true ↔
      (max (node0.aest + pbW.c_m rW.workers node0.id nodeK.id) nodeK.est ≤ nodeK.lst ∧
       node0.alst - pbW.c_m rW.workers nodeK.id node0.id ≥ nodeK.est ∧
       node0.aest + pbW.c_m rW.workers node0.id nodeK.id ≤
         node0.alst - pbW.c_m rW.workers nodeK.id node0.id ∧
       rW.load + nodeK.demand ≤ pbW.capacity) :=
  insertion_accept_iff pbW rW node0 node0 nodeK 0 rfl rfl (by decide) (by decide)

/-- `clone_node` copies every modelled field. -/
theorem clone_node_eq (n : Node) : clone_node n = n := rfl

/-- Mapping `clone_node` over a chain reproduces the chain. -/
theorem map_clone_node (l : List Node) : l.map clone_node = l := by
  induction l with
  | nil => rfl
  | cons h t ih => simp [clone_node_eq, ih]

/-- `clone_route` reproduces the route value. -/
theorem clone_route_eq (r : Route) : clone_route r = r := by
  cases r
  simp [clone_route, map_clone_node]

/-- Mapping `clone_route` over the route array reproduces it. -/
theorem map_clone_route (l : List Route) : l.map clone_route = l := by
  induction l with
  | nil => rfl
  | cons h t ih => simp [clone_route_eq, ih]

/-- In the pure model a deep copy is the identity on values. -/
theorem clone_solution_eq (s : Solution) : clone_solution s = s := by
  cases s
  simp [clone_solution, map_clone_route, map_clone_node]

/-- Claim C7: a cloned solution agrees with the original on trucks,
`num_unrouted` and the cached totals; its routes agree position by
position on id, depot id, len, load, workers and the node-id traversal;
its unrouted list carries the same node-id sequence; and `calc_costs`
agrees (object sharing is a memory notion outside the value model: the
clone functions build their result from fresh values only). -/
theorem clone_solution_spec (pb : Problem) (cfg : Config) (s : Solution) :
    (clone_solution s).trucks = s.trucks ∧
    (clone_solution s).num_unrouted = s.num_unrouted ∧
    (clone_solution s).workers_cache = s.workers_cache ∧
    (clone_solution s).dist_cache = s.dist_cache ∧
    (clone_solution s).cost_cache = s.cost_cache ∧
    (∀ i r, s.routes.get? i = some r →
      ∃ r2, (clone_solution s).routes.get? i = some r2 ∧ r2.id = r.id ∧
        r2.depot_id = r.depot_id ∧ r2.len = r.len ∧ r2.load = r.load ∧
        r2.workers = r.workers ∧ r2.nodes.map Node.id = r.nodes.map Node.id) ∧
    (clone_solution s).unrouted.map Node.id = s.unrouted.map Node.id ∧
    calc_costs pb cfg (clone_solution s) = calc_costs pb cfg s := by
  rw [clone_solution_eq]
  refine ⟨rfl, rfl, rfl, rfl, rfl, ?_, rfl, rfl⟩
  intro i r h
  exact ⟨r, h, rfl, rfl, rfl, rfl, rfl, rfl⟩

/-- Looking up the key just written by `assoc_set`. -/
theorem assoc_find_set_self (l : List (ℕ × ℕ)) (k v : ℕ) :
    assoc_find (assoc_set l k v) k = some v := by
  induction l with
  | nil => simp [assoc_set, assoc_find]
  | cons h t ih =>
    obtain ⟨k1, v1⟩ := h
    by_cases hk : k1 = k <;> simp [assoc_set, assoc_find, hk, ih]

/-- Claim C8: the cache hash is `⌊cost · factor⌋` with
`factor = u64_max / num_nodes` (integer division), hence depends on the
cost only; `add` stores counter 1; `contains` returns 0 without change
when the hash is absent and otherwise increments the stored counter and
returns the new value. -/
theorem cache_spec (pb : Problem) (c : Cache) (s s2 : Solution)
    (h0 : 0 ≤ s.cost_cache)
    (hrep : s.cost_cache * (c.m_factor : ℚ) < 2 ^ 64) :
    c.hash s = ⌊s.cost_cache * (c.m_factor : ℚ)⌋₊ ∧
    (Cache.init pb).m_factor = U64_MAX / pb.num_nodes ∧
    (s2.cost_cache = s.cost_cache → c.hash s2 = c.hash s) ∧
    assoc_find (c.add s).m_cache (c.hash s) = some 1 ∧
    (assoc_find c.m_cache (c.hash s) = none → c.contains s = (0, c)) ∧
    (∀ v, assoc_find c.m_cache (c.hash s) = some v →
      (c.contains s).1 = v + 1 ∧
      assoc_find ((c.contains s).2).m_cache (c.hash s) = some (v + 1)) := by
  refine ⟨?_, rfl, ?_, ?_, ?_, ?_⟩
  · rw [Cache.hash, Int.floor_toNat]
  · intro h
    simp [Cache.hash, h]
  · exact assoc_find_set_self _ _ _
  · intro h
    simp [Cache.contains, h]
  · intro v h
    simp [Cache.contains, h, assoc_find_set_self]

/-- Witness for C8 on a concrete cache (factor 3) and two cost-2
solutions. -/
theorem cache_spec_witness :
    cacheW.hash solC8 = ⌊solC8.cost_cache * (cacheW.m_factor : ℚ)⌋₊ ∧
    (Cache.init pbW).m_factor = U64_MAX / pbW.num_nodes ∧
    (solC8b.cost_cache = solC8.cost_cache → cacheW.hash solC8b = cacheW.hash solC8) ∧
    assoc_find (cacheW.add solC8).m_cache (cacheW.hash solC8) = some 1 ∧
    (assoc_find cacheW.m_cache (cacheW.hash solC8) = none →
      cacheW.contains solC8 = (0, cacheW)) ∧
    (∀ v, assoc_find cacheW.m_cache (cacheW.hash solC8) = some v →
      (cacheW.contains solC8).1 = v + 1 ∧
      assoc_find ((cacheW.contains solC8).2).m_cache (cacheW.hash solC8) = some (v + 1)) :=
  cache_spec pbW cacheW solC8 solC8b (by norm_num [solC8]) (by norm_num [solC8, cacheW])

/-- Auxiliary for C4: folding further applied moves that never write the
cell `(k, s)` keeps the tabu list active, preserves the tabu time and the
`(k, s)` stamp, and advances the iteration counter once per move. -/
theorem apply_moves_tabulist (k s : ℕ) :
    ∀ (ms : List (List ℕ × ℕ)) (t0 : Tabulist), t0.active = true →
      (∀ p ∈ ms, ¬(k ∈ p.1 ∧ p.2 = s)) →
      (ms.foldl (fun t p => update_tabulist_move t p.1 p.2) t0).active = true ∧
      (ms.foldl (fun t p => update_tabulist_move t p.1 p.2) t0).nodes_routes_tabutime =
        t0.nodes_routes_tabutime ∧
      (ms.foldl (fun t p => update_tabulist_move t p.1 p.2) t0).iteration =
        t0.iteration + ms.length ∧
      (ms.foldl (fun t p => update_tabulist_move t p.1 p.2) t0).nodes_routes k s =
        t0.nodes_routes k s := by
  intro ms
  induction ms with
  | nil =>
    intro t0 ha _
    exact ⟨ha, rfl, rfl, rfl⟩
  | cons p rest ih =>
    intro t0 ha hnot
    have hp := hnot p (List.mem_cons_self p rest)
    have hstep : update_tabulist_move t0 p.1 p.2 =
        { t0 with
          iteration := t0.iteration + 1,
          nodes_routes := fun i j =>
            if i ∈ p.1 ∧ j = p.2 then t0.iteration + 1 + t0.nodes_routes_tabutime
            else t0.nodes_routes i j } := by
      simp [update_tabulist_move, ha]
    have hcell : (update_tabulist_move t0 p.1 p.2).nodes_routes k s =
        t0.nodes_routes k s := by
      rw [hstep]
      simp only
      rw [if_neg]
      rintro ⟨h1, h2⟩
      exact hp ⟨h1, h2.symm⟩
    have h0 := ih (update_tabulist_move t0 p.1 p.2)
      (by rw [hstep]; exact ha) (fun q hq => hnot q (List.mem_cons_of_mem p hq))
    obtain ⟨a1, a2, a3, a4⟩ := h0
    simp only [List.foldl_cons]
    refine ⟨a1, ?_, ?_, ?_⟩
    · rw [a2, hstep]
    · rw [a3, hstep]
      simp only [List.length_cons]
      omega
    · rw [a4, hcell]

/-- Claim C4: with an active tabu list, applying a move of node `k` off
route `s` advances the counter to `t = iteration + 1` and stamps
`T[k][s] = t + tabutime`; after any further applied moves that do not
rewrite that cell, a candidate move of `k` back onto `s` is tabu exactly
while the counter is below `t + tabutime`, i.e. for exactly the next
`tabutime` applied moves. -/
theorem tabu_blocking_exact (tl : Tabulist) (ks : List ℕ) (k s : ℕ)
    (hk : k ∈ ks) (ha : tl.active = true) (ms : List (List ℕ × ℕ))
    (hms : ∀ p ∈ ms, ¬(k ∈ p.1 ∧ p.2 = s)) :
    (update_tabulist_move tl ks s).iteration = tl.iteration + 1 ∧
    (update_tabulist_move tl ks s).nodes_routes k s =
      (update_tabulist_move tl ks s).iteration + tl.nodes_routes_tabutime ∧
    (ms.foldl (fun t p => update_tabulist_move t p.1 p.2)
        (update_tabulist_move tl ks s)).iteration =
      (update_tabulist_move tl ks s).iteration + ms.length ∧
    is_move_tabu
        (ms.foldl (fun t p => update_tabulist_move t p.1 p.2)
          (update_tabulist_move tl ks s)) [k] s =
      decide ((ms.foldl (fun t p => update_tabulist_move t p.1 p.2)
          (update_tabulist_move tl ks s)).iteration <
        (update_tabulist_move tl ks s).iteration + tl.nodes_routes_tabutime) ∧
    is_move_tabu
        (ms.foldl (fun t p => update_tabulist_move t p.1 p.2)
          (update_tabulist_move tl ks s)) [k] s =
      decide (ms.length < tl.nodes_routes_tabutime) := by
  have hstep : update_tabulist_move tl ks s =
      { tl with
        iteration := tl.iteration + 1,
        nodes_routes := fun i j =>
          if i ∈ ks ∧ j = s then tl.iteration + 1 + tl.nodes_routes_tabutime
          else tl.nodes_routes i j } := by
    simp [update_tabulist_move, ha]
  have hit : (update_tabulist_move tl ks s).iteration = tl.iteration + 1 := by
    rw [hstep]
  have hcell : (update_tabulist_move tl ks s).nodes_routes k s =
      tl.iteration + 1 + tl.nodes_routes_tabutime := by
    rw [hstep]
    simp [hk]
  obtain ⟨a1, a2, a3, a4⟩ := apply_moves_tabulist k s ms (update_tabulist_move tl ks s)
    (by rw [hstep]; exact ha) hms
  refine ⟨hit, ?_, a3, ?_, ?_⟩
  · rw [hcell, hit]
  · simp only [is_move_tabu, a1, Bool.not_true, Bool.false_eq_true, if_false,
      List.any_cons, List.any_nil, Bool.or_false, a4, hcell, a3, hit,
      gt_iff_lt, decide_eq_decide]
  · simp only [is_move_tabu, a1, Bool.not_true, Bool.false_eq_true, if_false,
      List.any_cons, List.any_nil, Bool.or_false, a4, hcell, a3, hit,
      gt_iff_lt, decide_eq_decide]
    omega

/-- Witness for C4: node 1 moved off route 0 with `tabutime = 2`, one
unrelated later move. -/
theorem tabu_blocking_exact_witness :
    (update_tabulist_move tlOn [1] 0).iteration = tlOn.iteration + 1 ∧
    (update_tabulist_move tlOn [1] 0).nodes_routes 1 0 =
      (update_tabulist_move tlOn [1] 0).iteration + tlOn.nodes_routes_tabutime ∧
    ([([2], 1)].foldl (fun t p => update_tabulist_move t p.1 p.2)
        (update_tabulist_move tlOn [1] 0)).iteration =
      (update_tabulist_move tlOn [1] 0).iteration + [([2], 1)].length ∧
    is_move_tabu
        ([([2], 1)].foldl (fun t p => update_tabulist_move t p.1 p.2)
          (update_tabulist_move tlOn [1] 0)) [1] 0 =
      decide (([([2], 1)].foldl (fun t p => update_tabulist_move t p.1 p.2)
          (update_tabulist_move tlOn [1] 0)).iteration <
        (update_tabulist_move tlOn [1] 0).iteration + tlOn.nodes_routes_tabutime) ∧
    is_move_tabu
        ([([2], 1)].foldl (fun t p => update_tabulist_move t p.1 p.2)
          (update_tabulist_move tlOn [1] 0)) [1] 0 =
      decide ([([2], 1)].length < tlOn.nodes_routes_tabutime) :=
  tabu_blocking_exact tlOn [1] 1 0 (by decide) rfl [([2], 1)] (by decide)

/-- Auxiliary for C5: reinforcement folds only ever increase a cell. -/
theorem foldl_add_pheromone_ge (v : ℚ) (hv : 0 ≤ v) :
    ∀ (edges : List (ℕ × ℕ)) (P : ℕ → ℕ → ℚ) (i j : ℕ),
      P i j ≤ (edges.foldl (fun acc e => add_pheromone acc e v) P) i j := by
  intro edges
  induction edges with
  | nil =>
    intro P i j
    exact le_refl _
  | cons e rest ih =>
    intro P i j
    refine le_trans ?_ (ih (add_pheromone P e v) i j)
    unfold add_pheromone
    by_cases h : i = e.1 ∧ j = e.2
    · rw [if_pos h]
      linarith
    · rw [if_neg h]

/-- Claim C5: with `0 ≤ rho ≤ 1` and `min_pheromone > 0`, after
`update_pheromone` every non-reserved cell (both indices in
`[1, 2·num_nodes − 2]`) is at least `min_pheromone`. -/
theorem update_pheromone_min_bound (cfg : Config) (num_nodes : ℕ)
    (p_m : ℕ → ℕ → ℚ) (sol : Solution)
    (hrho0 : 0 ≤ cfg.rho) (hrho1 : cfg.rho ≤ 1) (hminp : 0 < cfg.min_pheromone)
    (hids : pheromone_ids_in_range num_nodes sol)
    (i j : ℕ) (hi1 : 1 ≤ i) (hi2 : i ≤ 2 * num_nodes - 2)
    (hj1 : 1 ≤ j) (hj2 : j ≤ 2 * num_nodes - 2) :
    cfg.min_pheromone ≤ update_pheromone cfg num_nodes p_m sol i j := by
  unfold update_pheromone
  refine le_trans ?_ (foldl_add_pheromone_ge (1 - cfg.rho) (by linarith) _ _ i j)
  unfold pheromone_decay
  rw [if_pos (by omega)]
  exact le_max_right _ _

/-- Witness for C5: the 2-node instance with one ant route, `rho = 1/2`,
`min_pheromone = 1/10`, uniform initial pheromone 1, at cell (1, 1). -/
theorem update_pheromone_min_bound_witness :
    cfgW.min_pheromone ≤ update_pheromone cfgW 2 (fun _ _ => 1) solW 1 1 :=
  update_pheromone_min_bound cfgW 2 (fun _ _ => 1) solW (by norm_num [cfgW])
    (by norm_num [cfgW]) (by norm_num [cfgW]) (by decide) 1 1 (by norm_num)
    (by norm_num) (by norm_num) (by norm_num)

/-- Auxiliary for C6: the est-propagation check reads only the id/est/lst
signature of the chain. -/
theorem est_cache_feasible_sig (c_m : ℕ → ℕ → ℚ) :
    ∀ (l1 l2 : List Node), node_sig l1 = node_sig l2 →
      ∀ (c : ℚ) (pid : ℕ),
        est_cache_feasible c_m c pid l1 = est_cache_feasible c_m c pid l2 := by
  intro l1
  induction l1 with
  | nil =>
    intro l2 h c pid
    cases l2 with
    | nil => rfl
    | cons m t2 => simp [node_sig] at h
  | cons n t ih =>
    intro l2 h c pid
    cases l2 with
    | nil => simp [node_sig] at h
    | cons m t2 =>
      simp only [node_sig, List.map_cons, List.cons.injEq, Prod.mk.injEq] at h
      obtain ⟨⟨hid, hest, hlst⟩, ht⟩ := h
      simp only [est_cache_feasible, hid, hest, hlst]
      rw [ih t2 ht]

/-- Auxiliary for C6: `chain_feasible` reads only the signature. -/
theorem chain_feasible_sig (c_m : ℕ → ℕ → ℚ) (l1 l2 : List Node)
    (h : node_sig l1 = node_sig l2) :
    chain_feasible c_m l1 = chain_feasible c_m l2 := by
  cases l1 with
  | nil =>
    cases l2 with
    | nil => rfl
    | cons m t2 => simp [node_sig] at h
  | cons n t =>
    cases l2 with
    | nil => simp [node_sig] at h
    | cons m t2 =>
      simp only [node_sig, List.map_cons, List.cons.injEq, Prod.mk.injEq] at h
      obtain ⟨⟨hid, hest, hlst⟩, ht⟩ := h
      simp only [chain_feasible, hid, hest]
      exact est_cache_feasible_sig c_m t t2 ht _ _

/-- Auxiliary for C6: without the worker-count shortcut,
`is_feasible_with` is the pure chain check. -/
theorem is_feasible_with_ne (pb : Problem) (r : Route) (w : ℕ)
    (h : ¬r.workers = w) :
    is_feasible_with pb r w = chain_feasible (pb.c_m w) r.nodes := by
  unfold is_feasible_with chain_feasible
  rw [if_neg h]

/-- Auxiliary for C6: the cache-value list has the chain's length. -/
theorem est_cache_values_length (c_m : ℕ → ℕ → ℚ) :
    ∀ (l : List Node) (c : ℚ) (pid : ℕ),
      (est_cache_values c_m c pid l).length = l.length := by
  intro l
  induction l with
  | nil => intro c pid; rfl
  | cons n t ih =>
    intro c pid
    simp only [est_cache_values, List.length_cons, ih]

/-- Auxiliary for C6: overwriting `aest` along a zip keeps the
signature. -/
theorem node_sig_zip_aest :
    ∀ (l : List Node) (vs : List ℚ), l.length = vs.length →
      node_sig ((l.zip vs).map fun p => { p.1 with aest := p.2 }) = node_sig l := by
  intro l
  induction l with
  | nil => intro vs _; rfl
  | cons n t ih =>
    intro vs hlen
    cases vs with
    | nil => simp at hlen
    | cons v vt =>
      simp only [List.zip_cons_cons, List.map_cons, node_sig, List.cons.injEq]
      refine ⟨by trivial, ?_⟩
      exact ih vt (by simpa using hlen)

/-- Auxiliary for C6: the `aest := aest_cache` copy keeps the
signature. -/
theorem node_sig_copy_cache (c_m : ℕ → ℕ → ℚ) (l : List Node) :
    node_sig (copy_cache_to_aest c_m l) = node_sig l := by
  cases l with
  | nil => rfl
  | cons d rest =>
    simp only [copy_cache_to_aest, node_sig, List.map_cons, List.cons.injEq]
    refine ⟨by trivial, ?_⟩
    exact node_sig_zip_aest rest _ (by rw [est_cache_values_length])

/-- Auxiliary for C6: the backward `alst` sweep keeps the signature. -/
theorem node_sig_calc_lsts_go (c_m : ℕ → ℕ → ℚ) :
    ∀ (l : List Node) (s : Node),
      node_sig (calc_lsts_go c_m s l) = node_sig l := by
  intro l
  induction l with
  | nil => intro s; rfl
  | cons n rest ih =>
    intro s
    cases rest with
    | nil => rfl
    | cons m rest2 =>
      simp only [calc_lsts_go, node_sig, List.map_cons, List.cons.injEq]
      exact ⟨by trivial, ih _⟩

/-- Auxiliary for C6: `calc_lsts` keeps the signature. -/
theorem node_sig_calc_lsts_full (c_m : ℕ → ℕ → ℚ) (l : List Node) :
    node_sig (calc_lsts_full c_m l) = node_sig l := by
  unfold calc_lsts_full
  cases hrev : l.reverse with
  | nil => rfl
  | cons t rest =>
    have hl : l = (t :: calc_lsts_go c_m t rest).reverse.reverse.reverse.reverse → True :=
      fun _ => trivial
    simp only [node_sig, List.map_reverse]
    have h1 : node_sig (({ t with alst := t.lst } : Node) ::
        calc_lsts_go c_m { t with alst := t.lst } rest) = node_sig (t :: rest) := by
      simp only [node_sig, List.map_cons, List.cons.injEq]
      exact ⟨by trivial, by
        have := node_sig_calc_lsts_go c_m rest { t with alst := t.lst }
        simpa [node_sig] using this⟩
    have h2 : node_sig (t :: rest) = node_sig l.reverse := by rw [hrev]
    have h3 : (node_sig l.reverse) = (node_sig l).reverse := by
      simp [node_sig, List.map_reverse]
    calc (List.map (fun n => (n.id, n.est, n.lst))
            (({ t with alst := t.lst } : Node) ::
              calc_lsts_go c_m { t with alst := t.lst } rest)).reverse
        = (node_sig (t :: rest)).reverse := by
          rw [← h1]; rfl
      _ = (node_sig l).reverse.reverse := by rw [h2, h3]
      _ = node_sig l := by rw [List.reverse_reverse]

/-- Auxiliary for C6: after the descending loop (entered with the C
invariant `r.workers = cand + 1`), the surviving route has the same chain
signature, at least one worker, and either exactly one worker or an
infeasible next reduction. -/
theorem rsw_loop_spec (pb : Problem) :
    ∀ (cand : ℕ) (r : Route) (red : Bool), r.workers = cand + 1 →
      node_sig (rsw_loop pb cand r red).1.nodes = node_sig r.nodes ∧
      1 ≤ (rsw_loop pb cand r red).1.workers ∧
      ((rsw_loop pb cand r red).1.workers = 1 ∨
        chain_feasible (pb.c_m ((rsw_loop pb cand r red).1.workers - 1))
          (rsw_loop pb cand r red).1.nodes = false) := by
  intro cand
  induction cand with
  | zero =>
    intro r red hw
    simp only [rsw_loop]
    exact ⟨by trivial, by omega, Or.inl hw⟩
  | succ c ih =>
    intro r red hw
    by_cases hg : is_feasible_with pb r (c + 1) = true
    · simp only [rsw_loop, hg, if_true]
      have h2 := ih
        { r with workers := c + 1,
                 nodes := copy_cache_to_aest (pb.c_m (c + 1)) r.nodes } true rfl
      obtain ⟨b1, b2, b3⟩ := h2
      refine ⟨?_, b2, b3⟩
      rw [b1]
      exact node_sig_copy_cache _ _
    · have hg2 : is_feasible_with pb r (c + 1) = false := by
        simpa using hg
      simp only [rsw_loop, hg2, Bool.false_eq_true, if_false]
      refine ⟨by trivial, by omega, Or.inr ?_⟩
      have hne : ¬r.workers = c + 1 := by omega
      rw [hw]
      simp only [Nat.add_sub_cancel]
      rw [← is_feasible_with_ne pb r (c + 1) hne]
      exact hg2

/-- Claim C6: on a route satisfying the §3 invariants, an immediate second
call to `reduce_service_workers` returns 0 (`false`) and leaves the route
— in particular its worker count — unchanged. -/
theorem reduce_service_workers_idempotent (pb : Problem) (r : Route)
    (hinv : route_invariants pb r) :
    reduce_service_workers pb (reduce_service_workers pb r).1 =
      ((reduce_service_workers pb r).1, false) := by
  cases hw0 : r.workers with
  | zero =>
    have h1 : reduce_service_workers pb r = (r, false) := by
      simp [reduce_service_workers, hw0, rsw_loop]
    rw [h1]
    exact h1
  | succ c =>
    have hspec := rsw_loop_spec pb c r false (by omega)
    obtain ⟨hsig, hw1, hdisj⟩ := hspec
    rcases hp : rsw_loop pb c r false with ⟨r1, red1⟩
    rw [hp] at hsig hw1 hdisj
    simp only at hsig hw1 hdisj
    have hfirst : reduce_service_workers pb r =
        (if red1 then
          ({ r1 with nodes := calc_lsts_full (pb.c_m r1.workers) r1.nodes }, true)
         else (r1, red1)) := by
      simp only [reduce_service_workers, hw0, Nat.succ_sub_one, hp]
    -- the committed route of the first call
    set rf : Route := if red1 then
        { r1 with nodes := calc_lsts_full (pb.c_m r1.workers) r1.nodes }
      else r1 with hrf
    have hres : (reduce_service_workers pb r).1 = rf := by
      rw [hfirst, hrf]
      cases red1 <;> rfl
    have hrfw : rf.workers = r1.workers := by
      rw [hrf]
      cases red1 <;> rfl
    have hrfsig : node_sig rf.nodes = node_sig r.nodes := by
      rw [hrf]
      cases red1 <;> simp [node_sig_calc_lsts_full, hsig]
    have hdisj2 : rf.workers = 1 ∨
        chain_feasible (pb.c_m (rf.workers - 1)) rf.nodes = false := by
      rcases hdisj with h | h
      · exact Or.inl (by rw [hrfw, h])
      · refine Or.inr ?_
        rw [hrfw]
        rw [chain_feasible_sig (pb.c_m (r1.workers - 1)) rf.nodes r1.nodes]
        · exact h
        · rw [hrfsig, hsig]
    -- second call
    rw [hres]
    rcases hdisj2 with h1 | h1
    · simp [reduce_service_workers, h1, rsw_loop]
    · have hw1f : 1 ≤ rf.workers := by rw [hrfw]; exact hw1
      cases hwf : rf.workers with
      | zero => omega
      | succ c2 =>
        cases c2 with
        | zero =>
          simp [reduce_service_workers, hwf, rsw_loop]
        | succ c3 =>
          have hne : ¬rf.workers = c3 + 1 := by omega
          have hfeas : is_feasible_with pb rf (c3 + 1) = false := by
            rw [is_feasible_with_ne pb rf (c3 + 1) hne]
            have : rf.workers - 1 = c3 + 1 := by omega
            rw [← this]
            exact h1
          simp only [reduce_service_workers, hwf, Nat.succ_sub_one, rsw_loop, hfeas,
            Bool.false_eq_true, if_false]

/-- Auxiliary for C9: positions before the erased index are untouched. -/
theorem get?_eraseIdx_lt {α : Type} :
    ∀ (l : List α) (i j : ℕ), j < i → (l.eraseIdx i).get? j = l.get? j := by
  intro l
  induction l with
  | nil => intro i j _; rfl
  | cons a t ih =>
    intro i j hj
    cases i with
    | zero => omega
    | succ i2 =>
      cases j with
      | zero => rfl
      | succ j2 =>
        simp only [List.eraseIdx_cons_succ, List.get?_cons_succ]
        exact ih i2 j2 (by omega)

/-- Auxiliary for C9: positions at or after the erased index shift down by
one. -/
theorem get?_eraseIdx_ge {α : Type} :
    ∀ (l : List α) (i j : ℕ), i ≤ j → (l.eraseIdx i).get? j = l.get? (j + 1) := by
  intro l
  induction l with
  | nil => intro i j _; rfl
  | cons a t ih =>
    intro i j hj
    cases i with
    | zero => rfl
    | succ i2 =>
      cases j with
      | zero => omega
      | succ j2 =>
        simp only [List.eraseIdx_cons_succ, List.get?_cons_succ]
        exact ih i2 j2 (by omega)

/-- Auxiliary for C9: erasing a valid index shortens the list by one. -/
theorem length_eraseIdx_lt {α : Type} :
    ∀ (l : List α) (i : ℕ), i < l.length → (l.eraseIdx i).length = l.length - 1 := by
  intro l
  induction l with
  | nil => intro i h; simp at h
  | cons a t ih =>
    intro i h
    cases i with
    | zero => rfl
    | succ i2 =>
      simp only [List.eraseIdx_cons_succ, List.length_cons]
      rw [ih i2 (by simpa using h)]
      simp at h
      omega

/-- Claim C9: `remove_route` on a route still containing customers
(`len ≠ 2`) is the fatal error path (modelled `none`, leaving the solution
unchanged); on an empty route it drops the route, decrements `trucks`,
shifts the higher slots down preserving order and clears the vacated last
slot; and of the solution-level operations it is the only one that reduces
the truck count (`clone_solution` preserves it, `new_route` increments
it). -/
theorem remove_route_spec (pb : Problem) (sol : Solution) (i : ℕ) (r : Route)
    (h : sol.routes.get? i = some r) :
    (r.nodes.length ≠ 2 → remove_route sol i = none) ∧
    (r.nodes.length = 2 →
      ∃ sol2, remove_route sol i = some sol2 ∧
        sol2.trucks = sol.trucks - 1 ∧
        (∀ j, j < i → sol2.routes.get? j = sol.routes.get? j) ∧
        (∀ j, i ≤ j → sol2.routes.get? j = sol.routes.get? (j + 1)) ∧
        sol2.routes.get? (sol.trucks - 1) = none) ∧
    (clone_solution sol).trucks = sol.trucks ∧
    (∀ seed w, ((new_route pb sol seed w).2).trucks = sol.trucks + 1) := by
  have hi : i < sol.routes.length := by
    by_contra hge
    rw [List.get?_eq_none.2 (by omega)] at h
    exact Option.noConfusion h
  have h2 : sol.routes[i]? = some r := by
    rw [← List.get?_eq_getElem?]
    exact h
  refine ⟨?_, ?_, ?_, ?_⟩
  · intro hlen
    simp [remove_route, h2, hlen]
  · intro hlen
    refine ⟨{ sol with routes := sol.routes.eraseIdx i }, by simp [remove_route, h2, hlen],
      ?_, ?_, ?_, ?_⟩
    · show (sol.routes.eraseIdx i).length = sol.routes.length - 1
      exact length_eraseIdx_lt sol.routes i hi
    · intro j hj
      exact get?_eraseIdx_lt sol.routes i j hj
    · intro j hj
      exact get?_eraseIdx_ge sol.routes i j hj
    · show (sol.routes.eraseIdx i).get? (sol.routes.length - 1) = none
      refine List.get?_eq_none.2 ?_
      rw [length_eraseIdx_lt sol.routes i hi]
  · rw [clone_solution_eq]
  · intro seed w
    show (sol.routes ++ [_]).length = sol.routes.length + 1
    simp

/-- Witness for C9: a solution holding one empty route. -/
theorem remove_route_spec_witness :
    (rW.nodes.length ≠ 2 → remove_route solW9 0 = none) ∧
    (rW.nodes.length = 2 →
      ∃ sol2, remove_route solW9 0 = some sol2 ∧
        sol2.trucks = solW9.trucks - 1 ∧
        (∀ j, j < 0 → sol2.routes.get? j = solW9.routes.get? j) ∧
        (∀ j, 0 ≤ j → sol2.routes.get? j = solW9.routes.get? (j + 1)) ∧
        sol2.routes.get? (solW9.trucks - 1) = none) ∧
    (clone_solution solW9).trucks = solW9.trucks ∧
    (∀ seed w, ((new_route pbW solW9 seed w).2).trucks = solW9.trucks + 1) :=
  remove_route_spec pbW solW9 0 rW rfl

/-- Witness for C6: the one-customer two-worker route of the 2-node
instance (the first call reduces it to one worker). -/
theorem reduce_service_workers_idempotent_witness :
    reduce_service_workers pbW (reduce_service_workers pbW rW6).1 =
      ((reduce_service_workers pbW rW6).1, false) :=
  reduce_service_workers_idempotent pbW rW6 (by
    norm_num [route_invariants, rW6, pbW, nodeC, node0, interior, adjacentPairs,
      sum_demands, DEPOT])

/-- Claim C2 (evaluation at the failing input): `get_best_insertion` with
`alpha = 1/2` on the empty route of the 2-node instance returns cost 2,
whereas the claim's combined Solomon cost
`c1 = alpha * (d(p,k) + d(k,p.next) - mu * d(p,p.next)) +
(1-alpha) * (est_succ - aest(p.next))` at the chosen position is 4: the
`alpha2` branch of the C code overwrites the distance part instead of
adding it. -/
theorem gbi_cost_overwrites_distance :
    ((get_best_insertion pbW cfgC2 rW nodeK).map Insertion.cost = some 2) ∧
    cfgC2.alpha * (pbW.c_m 0 node0.id nodeK.id + pbW.c_m 0 nodeK.id node0.id -
        cfgC2.mu * pbW.c_m 0 node0.id node0.id) +
      (1 - cfgC2.alpha) *
        (max node0.est (max nodeK.est (node0.aest + pbW.c_m rW.workers node0.id nodeK.id) +
          pbW.c_m rW.workers nodeK.id node0.id) - node0.aest) = 4 ∧
    (2 : ℚ) ≠ 4 := by
  refine ⟨?_, by norm_num [cfgC2, pbW, node0, nodeK, rW], by norm_num⟩
  norm_num [get_best_insertion, gbi_loop, can_insert_one, pbW, cfgC2, rW, nodeK, node0,
    MIN_DELTA, List.range_succ]

/-- Auxiliary for C10: any move recorded by the inner position scan of
`update_move` carries exactly the `delta_trucks`/`delta_workers` values it
was given and the scanned source route; otherwise the scan leaves the
incumbent untouched. -/
theorem um_inner_post (pb : Problem) (cfg : Config) (tl : Tabulist)
    (source target : Route) (window : List Node) (winIdx pvId fId lId nxId : ℕ)
    (dt dw : ℤ) :
    ∀ (l : List ℕ) (m : Move) (upd : Bool) (res : Move × Bool × Bool),
      um_inner pb cfg tl source target window winIdx pvId fId lId nxId dt dw l m upd =
        res →
      ((res.1 = m ∧ res.2.1 = upd ∧ res.2.2 = false) ∨
       (res.1.delta_trucks = dt ∧ res.1.delta_workers = dw ∧
        res.1.source = source ∧ res.2.1 = true)) := by
  intro l
  induction l with
  | nil =>
    intro m upd res heq
    simp only [um_inner] at heq
    exact Or.inl (by rw [← heq]; exact ⟨rfl, rfl, rfl⟩)
  | cons a rest ih =>
    intro m upd res heq
    simp only [um_inner] at heq
    cases hga : target.nodes.get? a with
    | none =>
      rw [hga] at heq
      exact ih m upd res heq
    | some after =>
      rw [hga] at heq
      cases hgan : target.nodes.get? (a + 1) with
      | none =>
        rw [hgan] at heq
        exact ih m upd res heq
      | some an =>
        rw [hgan] at heq
        simp only at heq
        by_cases h1 : delta_is_higher m dt dw
            (calc_delta_dist_move (pb.c_m 0) pvId fId lId nxId after.id an.id) = true
        · rw [if_pos h1] at heq
          by_cases h2 : can_insert pb target window a = true
          · rw [if_pos h2] at heq
            by_cases h3 : (!is_move_tabu tl (window.map Node.id) target.id) = true
            · rw [if_pos h3] at heq
              by_cases h4 : (!cfg.best_moves) = true
              · rw [if_pos h4] at heq
                refine Or.inr ?_
                rw [← heq]
                exact ⟨rfl, rfl, rfl, rfl⟩
              · rw [if_neg h4] at heq
                rcases ih _ _ _ heq with ⟨e1, e2, _⟩ | ⟨q1, q2, q3, q4⟩
                · refine Or.inr ?_
                  rw [e1]
                  exact ⟨rfl, rfl, rfl, e2⟩
                · exact Or.inr ⟨q1, q2, q3, q4⟩
            · rw [if_neg h3] at heq
              exact ih m upd res heq
          · rw [if_neg h2] at heq
            exact ih m upd res heq
        · rw [if_neg h1] at heq
          exact ih m upd res heq

/-- Auxiliary for C10: when `move_reduces_workers` is not consulted (the
source would be emptied, or the state is still `REDUCE_TRUCKS`), every
move recorded by the outer window scan carries `delta_trucks = dtB` and
`delta_workers = dw0`. -/
theorem um_outer_post (pb : Problem) (cfg : Config) (tl : Tabulist)
    (source target : Route) (state len : ℕ) (dtB : Bool) (dw0 : ℤ)
    (hng : ¬(REDUCE_WORKERS ≤ state ∧ dtB = false)) :
    ∀ (ss : List ℕ) (m : Move) (upd : Bool) (res : Move × Bool),
      um_outer pb cfg tl source target state len dtB dw0 ss m upd = res →
      ((res.1 = m ∧ res.2 = upd) ∨
       (res.1.delta_trucks = (if dtB then (1 : ℤ) else 0) ∧
        res.1.delta_workers = dw0 ∧ res.1.source = source ∧ res.2 = true)) := by
  intro ss
  induction ss with
  | nil =>
    intro m upd res heq
    simp only [um_outer] at heq
    exact Or.inl (by rw [← heq]; exact ⟨rfl, rfl⟩)
  | cons s rest ih =>
    intro m upd res heq
    simp only [um_outer] at heq
    by_cases hcap : pb.capacity <
        target.load + sum_demands ((source.nodes.drop s).take len)
    · rw [if_pos hcap] at heq
      exact ih m upd res heq
    · rw [if_neg hcap] at heq
      cases hpv : source.nodes.get? (s - 1) with
      | none =>
        rw [hpv] at heq
        exact ih m upd res heq
      | some pv =>
        rw [hpv] at heq
        cases hf : source.nodes.get? s with
        | none =>
          rw [hf] at heq
          exact ih m upd res heq
        | some f =>
          rw [hf] at heq
          cases hl : source.nodes.get? (s + len - 1) with
          | none =>
            rw [hl] at heq
            exact ih m upd res heq
          | some l =>
            rw [hl] at heq
            cases hnx : source.nodes.get? (s + len) with
            | none =>
              rw [hnx] at heq
              exact ih m upd res heq
            | some nx =>
              rw [hnx] at heq
              simp only at heq
              rw [if_neg hng] at heq
              by_cases hstop : (um_inner pb cfg tl source target
                  ((source.nodes.drop s).take len) s pv.id f.id l.id nx.id
                  (if dtB then (1 : ℤ) else 0) dw0
                  (List.range (target.nodes.length - 1)) m upd).2.2 = true
              · rw [if_pos hstop] at heq
                rcases um_inner_post pb cfg tl source target
                    ((source.nodes.drop s).take len) s pv.id f.id l.id nx.id
                    (if dtB then (1 : ℤ) else 0) dw0
                    (List.range (target.nodes.length - 1)) m upd _ rfl with
                  ⟨_, _, e3⟩ | ⟨q1, q2, q3, _⟩
                · rw [e3] at hstop
                  exact Bool.noConfusion hstop
                · refine Or.inr ?_
                  rw [← heq]
                  exact ⟨q1, q2, q3, rfl⟩
              · rw [if_neg hstop] at heq
                rcases um_inner_post pb cfg tl source target
                    ((source.nodes.drop s).take len) s pv.id f.id l.id nx.id
                    (if dtB then (1 : ℤ) else 0) dw0
                    (List.range (target.nodes.length - 1)) m upd _ rfl with
                  ⟨e1, e2, _⟩ | ⟨q1, q2, q3, q4⟩
                · rcases ih _ _ _ heq with ⟨f1, f2⟩ | ⟨g1, g2, g3, g4⟩
                  · exact Or.inl ⟨f1.trans e1, f2.trans e2⟩
                  · exact Or.inr ⟨g1, g2, g3, g4⟩
                · rcases ih _ _ _ heq with ⟨f1, f2⟩ | ⟨g1, g2, g3, g4⟩
                  · refine Or.inr ?_
                    rw [f1, f2]
                    exact ⟨q1, q2, q3, q4⟩
                  · exact Or.inr ⟨g1, g2, g3, g4⟩

/-- Auxiliary for C10: `get_route_index` finds the unique route with the
given id after a prefix of routes with other ids. -/
theorem get_route_index_append :
    ∀ (A : List Route) (r0 : Route) (B : List Route) (rid : ℕ),
      (∀ r ∈ A, r.id ≠ rid) → r0.id = rid →
      get_route_index (A ++ r0 :: B) rid = some A.length := by
  intro A
  induction A with
  | nil =>
    intro r0 B rid _ h0
    simp [get_route_index, h0]
  | cons a At ih =>
    intro r0 B rid hA h0
    have ha : ¬a.id = rid := hA a (by simp)
    simp [List.cons_append, get_route_index, ha,
      ih r0 B rid (fun r hr => hA r (by simp [hr])) h0]

/-- Auxiliary for C10: erasing the element between two segments. -/
theorem eraseIdx_append_length {α : Type} :
    ∀ (A : List α) (x : α) (B : List α),
      (A ++ x :: B).eraseIdx A.length = A ++ B := by
  intro A
  induction A with
  | nil => intro x B; rfl
  | cons a At ih =>
    intro x B
    simp only [List.cons_append, List.length_cons, List.eraseIdx_cons_succ, ih]

/-- Auxiliary for C10: indexing the element between two segments. -/
theorem get?_append_length {α : Type} :
    ∀ (A : List α) (x : α) (B : List α), (A ++ x :: B).get? A.length = some x := by
  intro A
  induction A with
  | nil => intro x B; rfl
  | cons a At ih =>
    intro x B
    simp only [List.cons_append, List.length_cons, List.get?_cons_succ, ih]

/-- Auxiliary for C10: the id-keyed route update leaves unrelated routes
alone. -/
theorem map_update_id_of_ne (rid : ℕ) (f : Route → Route) :
    ∀ (l : List Route), (∀ r ∈ l, r.id ≠ rid) →
      l.map (fun r => if r.id = rid then f r else r) = l := by
  intro l
  induction l with
  | nil => intro _; rfl
  | cons a t ih =>
    intro h
    have ha : ¬a.id = rid := h a (by simp)
    simp only [List.map_cons, ha, if_false]
    rw [ih (fun r hr => h r (List.mem_cons_of_mem a hr))]

/-- Auxiliary for C10: worker sums over a cons cell. -/
theorem workers_sum_cons (r : Route) (l : List Route) :
    workers_sum (r :: l) = (r.workers : ℤ) + workers_sum l := rfl

/-- Auxiliary for C10: worker sums split across appends. -/
theorem workers_sum_append :
    ∀ (A B : List Route), workers_sum (A ++ B) = workers_sum A + workers_sum B := by
  intro A
  induction A with
  | nil => intro B; simp [workers_sum]
  | cons a At ih =>
    intro B
    rw [List.cons_append, workers_sum_cons, workers_sum_cons, ih]
    ring

/-- Auxiliary for C10: the id-keyed route update with a worker-preserving
function preserves the worker sum. -/
theorem workers_sum_map_preserve (rid : ℕ) (f : Route → Route)
    (hf : ∀ r, (f r).workers = r.workers) :
    ∀ (l : List Route),
      workers_sum (l.map (fun r => if r.id = rid then f r else r)) = workers_sum l := by
  intro l
  induction l with
  | nil => rfl
  | cons a t ih =>
    rw [List.map_cons, workers_sum_cons, workers_sum_cons, ih]
    by_cases ha : a.id = rid
    · rw [if_pos ha, hf]
    · rw [if_neg ha]

/-- Claim C10: in `update_move`, a window that would empty the source
route (`source.len == len + 2`) yields candidates whose `delta_workers` is
the source's entire worker count (and `delta_trucks = 1`), independent of
`move_reduces_workers`; when the source would not be emptied and the state
is still `REDUCE_TRUCKS`, recorded candidates carry `delta_workers = 0`
(`move_reduces_workers` is consulted only in the remaining case); and
`perform_move` on a truck-saving move removes the source route, dropping
one truck and all of that route's workers from the solution. -/
theorem update_move_truck_saving (pb : Problem) (cfg : Config) (tl : Tabulist)
    (m : Move) (source target : Route) (state len : ℕ) (sol : Solution) (mv : Move)
    (A B : List Route) (r0 : Route) :
    (source.nodes.length = 2 + len →
      (update_move pb cfg tl m source target state len).1 = true →
        ((update_move pb cfg tl m source target state len).2.delta_trucks = 1 ∧
         (update_move pb cfg tl m source target state len).2.delta_workers =
           (source.workers : ℤ) ∧
         (update_move pb cfg tl m source target state len).2.source = source)) ∧
    (source.nodes.length ≠ 2 + len → state = REDUCE_TRUCKS →
      (update_move pb cfg tl m source target state len).1 = true →
        ((update_move pb cfg tl m source target state len).2.delta_trucks = 0 ∧
         (update_move pb cfg tl m source target state len).2.delta_workers = 0)) ∧
    (mv.delta_trucks ≠ 0 → mv.window ≠ [] →
      sol.routes = A ++ r0 :: B → r0.id = mv.source.id →
      (∀ rr ∈ A, rr.id ≠ mv.source.id) → (∀ rr ∈ B, rr.id ≠ mv.source.id) →
      r0.workers = mv.source.workers →
      (remove_nodes_noupdate r0 mv.winIdx mv.window.length).nodes.length = 2 →
      ∃ tl2 sol2, perform_move pb tl sol mv = some (tl2, sol2) ∧
        sol2.trucks + 1 = sol.trucks ∧
        total_workers sol2 + (mv.source.workers : ℤ) = total_workers sol) := by
  refine ⟨?_, ?_, ?_⟩
  · -- emptying window: delta_workers is the full worker count
    intro hlen hupd
    by_cases hA : cfg.max_move < (len : ℤ)
    · simp [update_move, hA] at hupd
    · have hB : ¬source.nodes.length < 2 + len := by omega
      have hdt : decide (source.nodes.length = 2 + len) = true := decide_eq_true hlen
      simp only [update_move, if_neg hA, if_neg hB, hdt, if_true, Bool.true_eq_false,
        and_false, if_false] at hupd ⊢
      rcases um_outer_post pb cfg tl source target state len true (source.workers : ℤ)
          (by simp)
          ((List.range (source.nodes.length - 1 - len)).map (fun i => i + 1)) m false
          _ rfl with ⟨_, e2⟩ | ⟨q1, q2, q3, _⟩
      · rw [e2] at hupd
        exact Bool.noConfusion hupd
      · exact ⟨by simpa using q1, q2, q3⟩
  · -- non-emptying window in REDUCE_TRUCKS: delta_workers stays 0
    intro hlen hstate hupd
    by_cases hA : cfg.max_move < (len : ℤ)
    · simp [update_move, hA] at hupd
    · by_cases hB : source.nodes.length < 2 + len
      · simp [update_move, if_neg hA, hB] at hupd
      · have hdt : decide (source.nodes.length = 2 + len) = false := decide_eq_false hlen
        by_cases hm1 : m.delta_trucks = 1
        · simp [update_move, if_neg hA, if_neg hB, hdt, hm1] at hupd
        · simp only [update_move, if_neg hA, if_neg hB, hdt, Bool.false_eq_true,
            if_false] at hupd ⊢
          rw [if_neg (fun hcontra => hm1 hcontra.1)] at hupd ⊢
          rcases um_outer_post pb cfg tl source target state len false 0
              (by rw [hstate]; decide)
              ((List.range (source.nodes.length - 1 - len)).map (fun i => i + 1)) m false
              _ rfl with ⟨_, e2⟩ | ⟨q1, q2, _, _⟩
          · rw [e2] at hupd
            exact Bool.noConfusion hupd
          · exact ⟨by simpa using q1, q2⟩
  · -- perform_move on a truck-saving move
    intro hdt hwin hroutes hid hAne hBne hw hsplice
    have hempty : mv.window.isEmpty = false := by
      cases hcase : mv.window with
      | nil => exact absurd hcase hwin
      | cons _ _ => rfl
    have hsol1routes : (update_route_by_id sol mv.source.id
        (fun r => remove_nodes_noupdate r mv.winIdx mv.window.length)).routes =
        A ++ remove_nodes_noupdate r0 mv.winIdx mv.window.length :: B := by
      show sol.routes.map _ = _
      rw [hroutes, List.map_append, List.map_cons]
      rw [map_update_id_of_ne _ _ A hAne]
      rw [map_update_id_of_ne _ _ B hBne]
      rw [if_pos hid]
    have hfind : get_route_index (update_route_by_id sol mv.source.id
        (fun r => remove_nodes_noupdate r mv.winIdx mv.window.length)).routes
        mv.source.id = some A.length := by
      rw [hsol1routes]
      exact get_route_index_append A _ B _ hAne hid
    have hget : (update_route_by_id sol mv.source.id
        (fun r => remove_nodes_noupdate r mv.winIdx mv.window.length)).routes[A.length]? =
        some (remove_nodes_noupdate r0 mv.winIdx mv.window.length) := by
      rw [hsol1routes, ← List.get?_eq_getElem?]
      exact get?_append_length A _ B
    have hrm : remove_route (update_route_by_id sol mv.source.id
        (fun r => remove_nodes_noupdate r mv.winIdx mv.window.length)) A.length =
        some { (update_route_by_id sol mv.source.id
            (fun r => remove_nodes_noupdate r mv.winIdx mv.window.length)) with
          routes := A ++ B } := by
      simp only [remove_route, hsol1routes, get?_append_length, hsplice, if_true,
        eraseIdx_append_length]
    have hpm : perform_move pb tl sol mv = some
        (update_tabulist_move tl (mv.window.map Node.id) mv.source.id,
         update_route_by_id
           { (update_route_by_id sol mv.source.id
               (fun r => remove_nodes_noupdate r mv.winIdx mv.window.length)) with
             routes := A ++ B }
           mv.target.id (fun r => add_nodes pb r mv.window mv.afterIdx)) := by
      simp only [perform_move, hempty, Bool.false_eq_true, if_false]
      rw [if_pos hdt]
      simp only [hfind, hrm]
    refine ⟨_, _, hpm, ?_, ?_⟩
    · show (List.map _ (A ++ B)).length + 1 = sol.routes.length
      rw [List.length_map, hroutes]
      simp
      omega
    · show workers_sum (List.map _ (A ++ B)) + (mv.source.workers : ℤ) =
        workers_sum sol.routes
      rw [workers_sum_map_preserve mv.target.id
        (fun r => add_nodes pb r mv.window mv.afterIdx) (fun r => rfl), hroutes,
        workers_sum_append, workers_sum_append, workers_sum_cons, hw]
      ring

/-- Witness for C10: the one-customer route `rW6` as source (emptied by a
1-node move) and `rTgt` as target, with the truck-saving move `mW10`
performed on the two-route solution `solW10`. -/
theorem update_move_truck_saving_witness :
    (rW6.nodes.length = 2 + 1 →
      (update_move pbW cfgW tlOff (init_move true) rW6 rTgt REDUCE_TRUCKS 1).1 = true →
        ((update_move pbW cfgW tlOff (init_move true) rW6 rTgt REDUCE_TRUCKS 1).2.delta_trucks = 1 ∧
         (update_move pbW cfgW tlOff (init_move true) rW6 rTgt REDUCE_TRUCKS 1).2.delta_workers =
           (rW6.workers : ℤ) ∧
         (update_move pbW cfgW tlOff (init_move true) rW6 rTgt REDUCE_TRUCKS 1).2.source = rW6)) ∧
    (rW6.nodes.length ≠ 2 + 1 → REDUCE_TRUCKS = REDUCE_TRUCKS →
      (update_move pbW cfgW tlOff (init_move true) rW6 rTgt REDUCE_TRUCKS 1).1 = true →
        ((update_move pbW cfgW tlOff (init_move true) rW6 rTgt REDUCE_TRUCKS 1).2.delta_trucks = 0 ∧
         (update_move pbW cfgW tlOff (init_move true) rW6 rTgt REDUCE_TRUCKS 1).2.delta_workers = 0)) ∧
    (mW10.delta_trucks ≠ 0 → mW10.window ≠ [] →
      solW10.routes = [] ++ rW6 :: [rTgt] → rW6.id = mW10.source.id →
      (∀ rr ∈ ([] : List Route), rr.id ≠ mW10.source.id) →
      (∀ rr ∈ [rTgt], rr.id ≠ mW10.source.id) →
      rW6.workers = mW10.source.workers →
      (remove_nodes_noupdate rW6 mW10.winIdx mW10.window.length).nodes.length = 2 →
      ∃ tl2 sol2, perform_move pbW tlOff solW10 mW10 = some (tl2, sol2) ∧
        sol2.trucks + 1 = solW10.trucks ∧
        total_workers sol2 + (mW10.source.workers : ℤ) = total_workers solW10) :=
  update_move_truck_saving pbW cfgW tlOff (init_move true) rW6 rTgt REDUCE_TRUCKS 1
    solW10 mW10 [] [rTgt] rW6

end Cvrptwms
